import Mathlib

/-!
Shallow embedding of `src/index.js` (MCPManager), the configuration discovery
and precedence-resolution engine of the `mcp-mcp` CLI tool.

Modelling conventions:
* A parsed JSON object field that may be absent (or `null`) is an `Option`.
* An entity mapping (a JSON object of server declarations) is an association
  list `List (String × ServerDecl)`; `Object.keys` order is the list order,
  as JavaScript objects preserve insertion order for string keys.
* The result of `fs.readFileSync` + `JSON.parse` on a candidate file is an
  `Except String RawJson`: `.error msg` models a read failure or a JSON
  syntax error (the thrown exception's message), `.ok` the parsed object.
* The filesystem subtree under a directory is the inductive `FSNode`:
  `dir` (readable directory with named entries), `file` (a regular file and
  the outcome of reading/parsing it), `badDir` (an entry that stats as a
  directory but whose `readdirSync` throws), `badEntry` (an entry whose
  `statSync` throws).
* `console.error` output is modelled as the `List String` component that
  `parseClaudeConfig` and `findAllMCPConfigs` return alongside the records.
* The ghost field `reads` of `ScanState` records each `readdirSync` attempt
  performed by `scanDirectory` together with the recursion depth at which it
  happened; it exists only so traversal bounds can be stated.
-/

/-- One server declaration inside an entity mapping (the value of one key of
`mcpServers` / `servers`).  `type := none` models an absent/undefined/null
`type` field, `some ""` an empty-string (falsy) one; likewise for `env`. -/
structure ServerDecl where
  type : Option String
  command : Option String
  env : Option (List (String × String))
deriving DecidableEq, Repr

/-- An entity mapping: JavaScript object from server name to declaration. -/
abbrev ServerMap := List (String × ServerDecl)

/-- The shape of a parsed candidate config file, keeping only the fields the
source ever reads: `config.mcpServers`, `config.servers`, `config.projects`
(each project value's own `mcpServers` field). -/
structure RawJson where
  mcpServers : Option ServerMap
  servers : Option ServerMap
  projects : Option (List (String × Option ServerMap))
deriving DecidableEq, Repr

/-- The normalized config object returned by the parser: always of the shape
`{ mcpServers: ... }` (`parseMCPConfig` normalizes the `.mcp.json` key
`servers` into `mcpServers`). -/
structure Config where
  mcpServers : ServerMap
deriving DecidableEq, Repr

/-- One discovery record, as pushed onto the `configs` array in the source:
`{ path, configPath, config, scope, configType }`. -/
structure ConfigRecord where
  path : String
  configPath : String
  config : Config
  scope : String
  configType : String
deriving DecidableEq, Repr

/-- Whether `needle` is a prefix of `hay` (on character lists). -/
def charsStartWith (hay needle : List Char) : Bool :=
  match hay, needle with
  | _, [] => true
  | [], _ :: _ => false
  | c :: cs, d :: ds => c = d && charsStartWith cs ds

/-- JavaScript `String.prototype.startsWith`. -/
def jsStartsWith (s needle : String) : Bool :=
  charsStartWith s.toList needle.toList

/-- Whether `needle` occurs as a contiguous run inside `hay`. -/
def charsInclude (hay needle : List Char) : Bool :=
  match hay with
  | [] => needle.isEmpty
  | _ :: rest => charsStartWith hay needle || charsInclude rest needle

/-- JavaScript `String.prototype.includes` (substring containment). -/
def jsIncludes (s needle : String) : Bool :=
  charsInclude s.toList needle.toList

/-- Source function `isMCPConfigFile(filename)`. -/
def isMCPConfigFile (filename : String) : Bool :=
  let mcpConfigFiles :=
    [".claude.json", ".mcp.json", ".claude_mcp_config.json", "mcp.json", "claude.json"]
  mcpConfigFiles.contains filename

/-- Source function `shouldScanDirectory(dirname)`. -/
def shouldScanDirectory (dirname : String) : Bool :=
  let skipDirs :=
    ["node_modules", ".git", ".next", "dist", "build",
     ".DS_Store", "coverage", ".nyc_output", "logs",
     "tmp", "temp", ".cache", ".npm"]
  !(skipDirs.contains dirname) && !(jsStartsWith dirname ".")

/-- Source function `determineScope(configPath)`, with the home directory
(`os.homedir()`) passed explicitly.  Note it uses plain string
`startsWith`, not directory-ancestry. -/
def determineScope (home : String) (configPath : String) : String :=
  if configPath = home then "user"
  else if jsStartsWith configPath home then "workspace"
  else "system"

/-- Source function `parseMCPConfig(filePath, filename)`.  Here `content` is the
outcome of `readFileSync` + `JSON.parse` on `filePath`; the surrounding
`try`/`catch` returns `null` on any failure. -/
def parseMCPConfig (content : Except String RawJson) (filename : String) : Option Config :=
  match content with
  | Except.error _ => none
  | Except.ok config =>
    if filename = ".claude.json" then
      match config.mcpServers with
      | some servers => if servers.length > 0 then some ⟨servers⟩ else none
      | none => none
    else if filename = ".mcp.json" then
      match config.servers with
      | some servers => if servers.length > 0 then some ⟨servers⟩ else none
      | none => none
    else if filename = ".claude_mcp_config.json" then
      match config.mcpServers with
      | some servers => if servers.length > 0 then some ⟨servers⟩ else none
      | none => none
    else
      none

/-- Source function `parseClaudeConfig(configPath)`.  Here `home` is
`os.homedir()`, `existsOnDisk` is `fs.existsSync`, `content` the outcome of
reading and JSON-parsing the file.  Returns the pushed records together with
the `console.error` lines emitted. -/
def parseClaudeConfig (home : String) (existsOnDisk : String → Bool)
    (configPath : String) (content : Except String RawJson) :
    List ConfigRecord × List String :=
  match content with
  | Except.error msg => ([], ["Error reading Claude config: " ++ msg])
  | Except.ok config =>
    let globalConfigs : List ConfigRecord :=
      match config.mcpServers with
      | some servers =>
        if servers.length > 0 then
          [{ path := home, configPath := configPath, config := ⟨servers⟩,
             scope := "user", configType := ".claude.json" }]
        else []
      | none => []
    let projectConfigs : List ConfigRecord :=
      match config.projects with
      | some projects =>
        projects.filterMap (fun pr =>
          match pr.2 with
          | some servers =>
            if servers.length > 0 then
              if existsOnDisk pr.1 || pr.1.toList.contains '/' then
                some { path := pr.1, configPath := configPath, config := ⟨servers⟩,
                       scope := "workspace", configType := ".claude.json (project)" }
              else none
            else none
          | none => none)
      | none => []
    (globalConfigs ++ projectConfigs, [])

/-- One entry of the array returned by `getServersFromConfig`. -/
structure ServerInfo where
  name : String
  type : String
  command : Option String
  env : List (String × String)
deriving DecidableEq, Repr

/-- Source function `getServersFromConfig(config)`:
`type: ... .type || 'unknown'` (so an absent or empty-string `type` becomes
`'unknown'`) and `env: ... .env || {}`. -/
def getServersFromConfig (config : Config) : List ServerInfo :=
  config.mcpServers.map (fun p =>
    { name := p.1
      type := match p.2.type with
              | some t => if t = "" then "unknown" else t
              | none => "unknown"
      command := p.2.command
      env := (p.2.env).getD [] })

/-- A filesystem subtree, as seen by the walker. -/
inductive FSNode where
  | file (content : Except String RawJson)
  | dir (entries : List (String × FSNode))
  | badEntry
  | badDir

/-- The mutable state threaded through `scanDirectory`: the `visited` set,
the `configs` array, and the ghost list of `readdirSync` attempts
(directory path, recursion depth). -/
structure ScanState where
  visited : List String
  configs : List ConfigRecord
  reads : List (String × Nat)

mutual

/-- Source function `scanDirectory(dir, depth)` (the closure inside
`findAllMCPConfigs`).  Guard: `if (depth > maxDepth || visited.has(dir))
return;` then `visited.add(dir)` and `readdirSync(dir)` (which throws on a
`badDir`/`file`/`badEntry` node, caught and swallowed). -/
def scanDirectory (home : String) (maxDepth : Nat) (dir : String) (node : FSNode)
    (depth : Nat) (st : ScanState) : ScanState :=
  if depth > maxDepth || st.visited.contains dir then st
  else
    let st1 : ScanState :=
      { st with visited := dir :: st.visited, reads := st.reads ++ [(dir, depth)] }
    match node with
    | FSNode.dir entries => scanEntries home maxDepth dir entries depth st1
    | FSNode.file _ => st1
    | FSNode.badEntry => st1
    | FSNode.badDir => st1

/-- The `for (const file of files)` loop body of `scanDirectory`: skip
dot-entries not containing `.json`, `statSync` each entry (`badEntry` =
throw, caught), push a record for recognized parseable config files, recurse
into directories when `depth < maxDepth` and `shouldScanDirectory`. -/
def scanEntries (home : String) (maxDepth : Nat) (dir : String)
    (entries : List (String × FSNode)) (depth : Nat) (st : ScanState) : ScanState :=
  match entries with
  | [] => st
  | (file, node) :: rest =>
    let st' : ScanState :=
      if jsStartsWith file "." && !(jsIncludes file ".json") then st
      else
        let filePath := dir ++ "/" ++ file
        match node with
        | FSNode.badEntry => st
        | FSNode.file content =>
          if isMCPConfigFile file then
            match parseMCPConfig content file with
            | some config =>
              { st with configs := st.configs ++
                  [{ path := dir, configPath := filePath, config := config,
                     scope := determineScope home dir, configType := file }] }
            | none => st
          else st
        | FSNode.dir _ =>
          if depth < maxDepth && shouldScanDirectory file then
            scanDirectory home maxDepth filePath node (depth + 1) st
          else st
        | FSNode.badDir =>
          if depth < maxDepth && shouldScanDirectory file then
            scanDirectory home maxDepth filePath node (depth + 1) st
          else st
    scanEntries home maxDepth dir rest depth st'

end

/-- The body of one iteration of the `for (const file of files)` loop, as a
standalone function: definitionally equal to the state update `scanEntries`
performs for the entry `(file, node)` before moving on to the rest. -/
def scanEntryStep (home : String) (maxDepth : Nat) (dir file : String) (node : FSNode)
    (depth : Nat) (st : ScanState) : ScanState :=
  if jsStartsWith file "." && !(jsIncludes file ".json") then st
  else
    let filePath := dir ++ "/" ++ file
    match node with
    | FSNode.badEntry => st
    | FSNode.file content =>
      if isMCPConfigFile file then
        match parseMCPConfig content file with
        | some config =>
          { st with configs := st.configs ++
              [{ path := dir, configPath := filePath, config := config,
                 scope := determineScope home dir, configType := file }] }
        | none => st
      else st
    | FSNode.dir _ =>
      if depth < maxDepth && shouldScanDirectory file then
        scanDirectory home maxDepth filePath node (depth + 1) st
      else st
    | FSNode.badDir =>
      if depth < maxDepth && shouldScanDirectory file then
        scanDirectory home maxDepth filePath node (depth + 1) st
      else st

/-- The ambient environment of one run: home directory, working directory,
the primary registry file (`~/.claude.json`: `none` = `existsSync` false),
`fs.existsSync` for project paths, and the subtree rooted at each seed
directory (`none` = `existsSync` false). -/
structure FS where
  home : String
  baseDir : String
  claudeCfg : Option (Except String RawJson)
  existsOnDisk : String → Bool
  seedNode : String → Option FSNode

/-- The records and error lines contributed by the primary registry
(`~/.claude.json`) step of `findAllMCPConfigs`. -/
def claudeResult (fs : FS) : List ConfigRecord × List String :=
  match fs.claudeCfg with
  | some content =>
    parseClaudeConfig fs.home fs.existsOnDisk (fs.home ++ "/.claude.json") content
  | none => ([], [])

/-- The seed directories scanned by `findAllMCPConfigs`:
`[homeDir/Desktop, homeDir/Documents, homeDir/Projects, baseDir]`. -/
def commonDirs (fs : FS) : List String :=
  [fs.home ++ "/Desktop", fs.home ++ "/Documents", fs.home ++ "/Projects", fs.baseDir]

/-- The scan state after the registry step and the walk of every seed
directory: the raw (pre-dedup, pre-sort) `configs` array plus ghost data. -/
def discoveryState (fs : FS) (maxDepth : Nat) : ScanState :=
  let st0 : ScanState := { visited := [], configs := (claudeResult fs).1, reads := [] }
  (commonDirs fs).foldl (fun st dir =>
    match fs.seedNode dir with
    | some node => scanDirectory fs.home maxDepth dir node 0 st
    | none => st) st0

/-- The raw configs array of one run, in push order (registry records first,
then walker records), before deduplication and sorting. -/
def rawConfigs (fs : FS) (maxDepth : Nat) : List ConfigRecord :=
  (discoveryState fs maxDepth).configs

/-- The deduplication key predicate of the source's
`c.path === config.path && c.configType === config.configType`. -/
def sameKey (a b : ConfigRecord) : Bool :=
  a.path = b.path && a.configType = b.configType

/-- The dedup step from the source:
`configs.filter((config, index, self) => index === self.findIndex(c => sameKey))`
— an element is kept iff its index equals the first index holding its key. -/
def uniqueConfigs (configs : List ConfigRecord) : List ConfigRecord :=
  configs.enum.filterMap (fun p =>
    if configs.findIdx (fun c => sameKey c p.2) = p.1 then some p.2 else none)

/-- The comparator of the final `.sort((a, b) => a.path.length - b.path.length)`. -/
def pathLenLe (a b : ConfigRecord) : Prop :=
  a.path.length ≤ b.path.length

instance : DecidableRel pathLenLe := fun a b => Nat.decLe _ _

instance : IsTotal ConfigRecord pathLenLe :=
  ⟨fun a b => Nat.le_total a.path.length b.path.length⟩

instance : IsTrans ConfigRecord pathLenLe :=
  ⟨fun _ _ _ h1 h2 => Nat.le_trans h1 h2⟩

/-- Source function `findAllMCPConfigs(baseDir, maxDepth)`: registry parse,
seed-directory walks, dedup, and the final stable sort ascending by
`path.length`.  Also returns the `console.error` lines of the run. -/
def findAllMCPConfigs (fs : FS) (maxDepth : Nat) : List ConfigRecord × List String :=
  (List.insertionSort pathLenLe (uniqueConfigs (rawConfigs fs maxDepth)),
   (claudeResult fs).2)

/-- One instance inside a conflict group: a server spread with
`configPath: configData.path` (the declaring directory) and `scope`. -/
structure ServerInstance where
  name : String
  type : String
  command : Option String
  env : List (String × String)
  configPath : String
  scope : String
deriving DecidableEq, Repr

/-- The `{ ...server, configPath: configData.path, scope: configData.scope }`
spread in `findConflicts`. -/
def toInstance (cd : ConfigRecord) (s : ServerInfo) : ServerInstance :=
  { name := s.name, type := s.type, command := s.command, env := s.env,
    configPath := cd.path, scope := cd.scope }

/-- One conflict group emitted by `findConflicts`. -/
structure Conflict where
  serverName : String
  instances : List ServerInstance
deriving DecidableEq, Repr

/-- One `serversByName` update: `if (!map.has(name)) map.set(name, []);
map.get(name).push(inst)`.  A JavaScript `Map` keeps keys in first-insertion
order and `push` appends, which is exactly this. -/
def addInstance (groups : List (String × List ServerInstance)) (inst : ServerInstance) :
    List (String × List ServerInstance) :=
  if groups.any (fun g => g.1 = inst.name) then
    groups.map (fun g => if g.1 = inst.name then (g.1, g.2 ++ [inst]) else g)
  else
    groups ++ [(inst.name, [inst])]

/-- The `serversByName` map of `findConflicts`, built by iterating the
record collection in order and every record's servers in order. -/
def serversByName (configs : List ConfigRecord) : List (String × List ServerInstance) :=
  configs.foldl (fun groups cd =>
    (getServersFromConfig cd.config).foldl
      (fun gs s => addInstance gs (toInstance cd s)) groups) []

/-- Source function `findConflicts()`, as a function of the record
collection it iterates: every name bucket with more than one instance. -/
def findConflicts (configs : List ConfigRecord) : List Conflict :=
  (serversByName configs).filterMap (fun g =>
    if g.2.length > 1 then some ⟨g.1, g.2⟩ else none)

/-- The active/overridden tagging of `displayConflicts`:
`isWinner = index === conflict.instances.length - 1`.  Returns each instance
paired with its `isWinner` flag. -/
def conflictTags (conflict : Conflict) : List (ServerInstance × Bool) :=
  conflict.instances.enum.map (fun p =>
    (p.2, decide (p.1 = conflict.instances.length - 1)))

/-- All instances of a record collection, flattened in iteration order
(used to characterize `serversByName`). -/
def allInstances (configs : List ConfigRecord) : List ServerInstance :=
  configs.flatMap (fun cd => (getServersFromConfig cd.config).map (toInstance cd))

/-- Bucket lookup in the `serversByName` association list. -/
def lookupGroup (groups : List (String × List ServerInstance)) (n : String) :
    List ServerInstance :=
  ((groups.find? (fun g => g.1 = n)).map (fun g => g.2)).getD []

/-- Whether a record's config declares server name `n`. -/
def declares (cd : ConfigRecord) (n : String) : Bool :=
  cd.config.mcpServers.any (fun p => p.1 = n)

/-- The comparator the conflict ordering is about: ascending declaring-path
string length of instances. -/
def instPathLenLe (a b : ServerInstance) : Prop :=
  a.configPath.length ≤ b.configPath.length

/-- The scope shape every record surfaced by discovery satisfies: project
entries of the primary registry are hard-coded `workspace`; every other
record's scope is `determineScope` of its directory path. -/
def scopeOKRecord (home : String) (c : ConfigRecord) : Prop :=
  c.scope = if c.configType = ".claude.json (project)" then "workspace"
            else determineScope home c.path

/-- Well-formedness of the ghost read log: no directory read twice, and
every read directory is in the visited set. -/
def GoodReads (st : ScanState) : Prop :=
  (st.reads.map Prod.fst).Nodup ∧ ∀ p ∈ st.reads.map Prod.fst, p ∈ st.visited

/-- What one (sub)call of the walker does to the state: the visited set only
grows, reads are appended with depths between the call depth and `maxDepth`,
configs are appended with well-scoped records, and read-log well-formedness
is preserved. -/
def ScanInv (home : String) (maxDepth depth : Nat) (st st' : ScanState) : Prop :=
  (∀ p, p ∈ st.visited → p ∈ st'.visited) ∧
  (∃ nr, st'.reads = st.reads ++ nr ∧ ∀ pd ∈ nr, depth ≤ pd.2 ∧ pd.2 ≤ maxDepth) ∧
  (∃ nc, st'.configs = st.configs ++ nc ∧ ∀ c ∈ nc, scopeOKRecord home c) ∧
  (GoodReads st → GoodReads st')

/-- A sample server declaration used by the concrete witnesses below. -/
def sampleDecl : ServerDecl := { type := some "stdio", command := some "npx", env := none }

/-- A concrete run environment: the primary registry declares a user-level
`github` server and one project entry (path containing a separator) that
declares `github` again; no seed directory exists. -/
def sampleFS : FS :=
  { home := "/h"
    baseDir := "/h"
    claudeCfg := some (Except.ok
      { mcpServers := some [("github", sampleDecl)]
        servers := none
        projects := some [("/h/p", some [("github", sampleDecl)])] })
    existsOnDisk := fun _ => false
    seedNode := fun _ => none }

/-- A concrete filesystem subtree: a directory holding an `.mcp.json` file
and an empty subdirectory. -/
def sampleTree : FSNode :=
  FSNode.dir
    [(".mcp.json", FSNode.file (Except.ok
        { mcpServers := none, servers := some [("gh2", sampleDecl)], projects := none })),
     ("sub", FSNode.dir [])]

/-- A concrete run environment whose working directory `/w` holds
`sampleTree`; no primary registry. -/
def sampleWalkFS : FS :=
  { home := "/h"
    baseDir := "/w"
    claudeCfg := none
    existsOnDisk := fun _ => false
    seedNode := fun d => if d = "/w" then some sampleTree else none }

/-- A parse result holding a non-empty entity mapping under both candidate
top-level keys (`mcpServers` and `servers`). -/
def rawBothKeys : RawJson :=
  { mcpServers := some [("github", sampleDecl)]
    servers := some [("github", sampleDecl)]
    projects := none }

/-- A run environment whose only candidate file is a well-formed `mcp.json`
(non-empty mapping under both candidate keys) in the working directory. -/
def mcpJsonOnlyFS : FS :=
  { home := "/h"
    baseDir := "/w"
    claudeCfg := none
    existsOnDisk := fun _ => false
    seedNode := fun d =>
      if d = "/w" then some (FSNode.dir [("mcp.json", FSNode.file (Except.ok rawBothKeys))])
      else none }

/-- A run environment for the scope counterexample: the registry has a
project entry at `/etc/proj`, outside the home directory `/home/u`. -/
def outsideProjectFS : FS :=
  { home := "/home/u"
    baseDir := "/home/u"
    claudeCfg := some (Except.ok
      { mcpServers := none
        servers := none
        projects := some [("/etc/proj", some [("github", sampleDecl)])] })
    existsOnDisk := fun _ => false
    seedNode := fun _ => none }

/-- The user-scope record `sampleFS` discovery produces. -/
def sampleRecUser : ConfigRecord :=
  { path := "/h", configPath := "/h/.claude.json",
    config := ⟨[("github", sampleDecl)]⟩, scope := "user", configType := ".claude.json" }

/-- The project record `sampleFS` discovery produces. -/
def sampleRecProj : ConfigRecord :=
  { path := "/h/p", configPath := "/h/.claude.json",
    config := ⟨[("github", sampleDecl)]⟩, scope := "workspace",
    configType := ".claude.json (project)" }

/-! ### Helper lemmas about the dedup key and the dedup step -/

theorem sameKey_iff {a b : ConfigRecord} :
    sameKey a b = true ↔ a.path = b.path ∧ a.configType = b.configType := by
  simp [sameKey]

theorem sameKey_refl (a : ConfigRecord) : sameKey a a = true := by
  simp [sameKey]

theorem sameKey_congr {a b : ConfigRecord} (h : sameKey a b = true) (x : ConfigRecord) :
    sameKey x a = sameKey x b := by
  rcases sameKey_iff.mp h with ⟨h1, h2⟩
  simp only [sameKey, h1, h2]

theorem sameKey_symm {a b : ConfigRecord} (h : sameKey a b = true) : sameKey b a = true := by
  rcases sameKey_iff.mp h with ⟨h1, h2⟩
  exact sameKey_iff.mpr ⟨h1.symm, h2.symm⟩

theorem find?_eq_getElem?_of_findIdx {α : Type} {q : α → Bool} :
    ∀ (l : List α) (i : Nat), l.findIdx q = i → i < l.length → l.find? q = l[i]? := by
  intro l
  induction l with
  | nil => intro i _ hi; simp at hi
  | cons a t ih =>
    intro i hidx hlen
    rw [List.findIdx_cons] at hidx
    cases hqa : q a with
    | true =>
      rw [hqa] at hidx
      simp only [cond_true] at hidx
      rw [List.find?_cons_of_pos _ hqa, ← hidx]
      simp
    | false =>
      rw [hqa] at hidx
      simp only [cond_false] at hidx
      rw [List.find?_cons_of_neg _ (by simp [hqa])]
      cases i with
      | zero => omega
      | succ j =>
        have hj : t.findIdx q = j := by omega
        rw [ih j hj (by simpa using hlen)]
        simp

theorem mem_uniqueConfigs {l : List ConfigRecord} {c : ConfigRecord} :
    c ∈ uniqueConfigs l ↔ l.find? (fun d => sameKey d c) = some c := by
  constructor
  · intro h
    simp only [uniqueConfigs, List.mem_filterMap] at h
    obtain ⟨⟨i, d⟩, hmem, hif⟩ := h
    simp only at hif
    by_cases hcond : l.findIdx (fun x => sameKey x d) = i
    · rw [if_pos hcond] at hif
      cases hif
      have hgl : l[i]? = some c := List.mem_enum_iff_getElem?.mp hmem
      obtain ⟨hlt, _⟩ := List.getElem?_eq_some_iff.mp hgl
      rw [find?_eq_getElem?_of_findIdx l i hcond hlt, hgl]
    · rw [if_neg hcond] at hif
      cases hif
  · intro h
    have hsplit := List.find?_eq_some.mp h
    obtain ⟨hqc, as, bs, hdecomp, hall⟩ := hsplit
    have hlen : as.length < l.length := by
      subst hdecomp; simp
    have hget : l[as.length] = c := by
      subst hdecomp
      rw [List.getElem_append_right (Nat.le_refl _)]
      simp
    have hidx : l.findIdx (fun d => sameKey d c) = as.length := by
      rw [List.findIdx_eq hlen]
      constructor
      · rw [hget]; exact hqc
      · intro j hj
        have hjlen : j < as.length := hj
        have hjl : j < l.length := Nat.lt_trans hj hlen
        have hgetj : l[j] = as[j] := by
          subst hdecomp
          exact List.getElem_append_left _
        rw [hgetj]
        have := hall as[j] (List.getElem_mem hjlen)
        simpa using this
    simp only [uniqueConfigs, List.mem_filterMap]
    refine ⟨(as.length, c), ?_, ?_⟩
    · exact List.mem_enum_iff_getElem?.mpr (by simp [List.getElem?_eq_some_iff, hlen, hget])
    · simp only
      rw [if_pos hidx]

theorem mem_of_mem_uniqueConfigs {l : List ConfigRecord} {c : ConfigRecord}
    (h : c ∈ uniqueConfigs l) : c ∈ l :=
  List.mem_of_find?_eq_some (mem_uniqueConfigs.mp h)

theorem nodup_uniqueConfigs (l : List ConfigRecord) : (uniqueConfigs l).Nodup := by
  have henum : l.enum.Nodup := by
    apply List.Nodup.of_map Prod.fst
    rw [List.enum_map_fst]
    exact List.nodup_range _
  apply List.Nodup.filterMap _ henum
  intro a a' b hb hb'
  simp only [Option.mem_def] at hb hb'
  by_cases h1 : l.findIdx (fun x => sameKey x a.2) = a.1
  · rw [if_pos h1] at hb
    by_cases h2 : l.findIdx (fun x => sameKey x a'.2) = a'.1
    · rw [if_pos h2] at hb'
      have e1 : a.2 = b := Option.some.inj hb
      have e2 : a'.2 = b := Option.some.inj hb'
      have e3 : a.2 = a'.2 := e1.trans e2.symm
      have e4 : a.1 = a'.1 := by rw [← h1, ← h2, e3]
      exact Prod.ext e4 e3
    · rw [if_neg h2] at hb'; cases hb'
  · rw [if_neg h1] at hb; cases hb

theorem pairwise_key_uniqueConfigs (l : List ConfigRecord) :
    (uniqueConfigs l).Pairwise (fun a b => sameKey a b = false) := by
  have hnd := nodup_uniqueConfigs l
  refine List.Pairwise.imp_of_mem ?_ hnd
  intro a b ha hb hne
  cases hk : sameKey a b
  · rfl
  · exfalso
    have h1 := mem_uniqueConfigs.mp ha
    have h2 := mem_uniqueConfigs.mp hb
    have hpred : (fun d => sameKey d a) = (fun d => sameKey d b) :=
      funext fun d => sameKey_congr hk d
    rw [hpred, h2] at h1
    exact hne (Option.some.inj h1).symm

theorem sameKey_false_symm : Symmetric (fun a b : ConfigRecord => sameKey a b = false) := by
  intro a b h
  cases hk : sameKey b a
  · rfl
  · exfalso
    have := sameKey_symm hk
    rw [h] at this
    cases this

/-- C4: in the final DiscoveryRecord collection the `(directoryPath,
formatKind)` (here `(path, configType)`) keys of any two records are
distinct; every retained record is exactly the first record carrying its key
in the raw pre-dedup push order, and every raw record's key is represented
by some retained record. -/
theorem dedup_invariant_holds (fs : FS) (maxDepth : Nat) :
    (findAllMCPConfigs fs maxDepth).1.Pairwise (fun a b => sameKey a b = false) ∧
    (∀ c ∈ (findAllMCPConfigs fs maxDepth).1,
      (rawConfigs fs maxDepth).find? (fun d => sameKey d c) = some c) ∧
    (∀ c ∈ rawConfigs fs maxDepth,
      ∃ d ∈ (findAllMCPConfigs fs maxDepth).1, sameKey d c = true) := by
  have hperm : ((findAllMCPConfigs fs maxDepth).1).Perm
      (uniqueConfigs (rawConfigs fs maxDepth)) := List.perm_insertionSort _ _
  refine ⟨?_, ?_, ?_⟩
  · exact (hperm.pairwise_iff (fun h => sameKey_false_symm h)).mpr
      (pairwise_key_uniqueConfigs _)
  · intro c hc
    exact mem_uniqueConfigs.mp (hperm.mem_iff.mp hc)
  · intro c hc
    have hex : ∃ x ∈ rawConfigs fs maxDepth, (fun d => sameKey d c) x :=
      ⟨c, hc, sameKey_refl c⟩
    obtain ⟨d, hd⟩ := Option.isSome_iff_exists.mp (List.find?_isSome.mpr hex)
    have hdc : sameKey d c = true := by
      have := List.find?_some hd
      simpa using this
    have hpred : (fun x => sameKey x d) = (fun x => sameKey x c) :=
      funext (sameKey_congr hdc)
    have hd' : (rawConfigs fs maxDepth).find? (fun x => sameKey x d) = some d := by
      rw [hpred]; exact hd
    exact ⟨d, hperm.mem_iff.mpr (mem_uniqueConfigs.mpr hd'), hdc⟩

/-- Witness for C4 at a concrete environment. -/
theorem dedup_invariant_holds_witness :
    sampleRecUser ∈ (findAllMCPConfigs sampleFS 4).1 ∧
    (rawConfigs sampleFS 4).find? (fun d => sameKey d sampleRecUser) = some sampleRecUser :=
  ⟨by decide, (dedup_invariant_holds sampleFS 4).2.1 sampleRecUser (by decide)⟩

/-- C5: for every environment, the final DiscoveryRecord collection is
sorted non-decreasing by the string length of `path`. -/
theorem discovery_sorted (fs : FS) (maxDepth : Nat) :
    List.Sorted pathLenLe (findAllMCPConfigs fs maxDepth).1 :=
  List.sorted_insertionSort pathLenLe _

/-! ### Helper lemmas about `serversByName` grouping -/

theorem lookupGroup_nil (n : String) : lookupGroup [] n = [] := rfl

theorem find?_congr_fun {α : Type} {p q : α → Bool} (h : ∀ x, p x = q x) (l : List α) :
    l.find? p = l.find? q := by
  rw [funext h]

theorem addInstance_invariant {groups : List (String × List ServerInstance)}
    {L : List ServerInstance} (inst : ServerInstance)
    (hk : (groups.map Prod.fst).Nodup)
    (hl : ∀ n, lookupGroup groups n = L.filter (fun i => i.name = n)) :
    ((addInstance groups inst).map Prod.fst).Nodup ∧
    (∀ n, lookupGroup (addInstance groups inst) n =
      (L ++ [inst]).filter (fun i => i.name = n)) := by
  have hfst : ∀ g : String × List ServerInstance,
      (if g.1 = inst.name then (g.1, g.2 ++ [inst]) else g).1 = g.1 := by
    intro g; split <;> rfl
  rw [addInstance]
  split
  case isTrue hany =>
    have hfind : ∀ n : String,
        (groups.map (fun g => if g.1 = inst.name then (g.1, g.2 ++ [inst]) else g)).find?
            (fun g => g.1 = n) =
          (groups.find? (fun g => g.1 = n)).map
            (fun g => if g.1 = inst.name then (g.1, g.2 ++ [inst]) else g) := by
      intro n
      have hcomp : ∀ g : String × List ServerInstance,
          ((fun g : String × List ServerInstance => decide (g.1 = n)) ∘
            (fun g => if g.1 = inst.name then (g.1, g.2 ++ [inst]) else g)) g =
          (fun g : String × List ServerInstance => decide (g.1 = n)) g := by
        intro g
        simp only [Function.comp_apply, hfst g]
      rw [List.find?_map, find?_congr_fun hcomp groups]
    constructor
    · rw [List.map_map]
      have heq : (Prod.fst ∘ fun g : String × List ServerInstance =>
          if g.1 = inst.name then (g.1, g.2 ++ [inst]) else g) = Prod.fst :=
        funext fun g => hfst g
      rw [heq]; exact hk
    · intro n
      rw [List.filter_append]
      by_cases hn : n = inst.name
      · have hex : ∃ g ∈ groups, g.1 = n := by
          simp only [hn]
          simpa using hany
        have hsome : (groups.find? (fun g => g.1 = n)).isSome := by
          rw [List.find?_isSome]
          simpa using hex
        obtain ⟨g0, hg0⟩ := Option.isSome_iff_exists.mp hsome
        have hg0n : g0.1 = n := by simpa using List.find?_some hg0
        have hif : g0.1 = inst.name := hg0n.trans hn
        have hold : lookupGroup groups n = g0.2 := by
          simp [lookupGroup, hg0]
        have hnew : lookupGroup
            (groups.map (fun g => if g.1 = inst.name then (g.1, g.2 ++ [inst]) else g)) n =
            g0.2 ++ [inst] := by
          simp [lookupGroup, hfind, hg0, hif]
        rw [hnew, ← hold, hl n]
        simp [List.filter_singleton, hn]
      · have hne : ¬ (inst.name = n) := fun h => hn h.symm
        cases hF : groups.find? (fun g => g.1 = n) with
        | none =>
          have hold : lookupGroup groups n = [] := by simp [lookupGroup, hF]
          have hnew : lookupGroup
              (groups.map (fun g => if g.1 = inst.name then (g.1, g.2 ++ [inst]) else g)) n =
              [] := by
            simp [lookupGroup, hfind, hF]
          have hLnil : L.filter (fun i => i.name = n) = [] := by rw [← hl n]; exact hold
          rw [hnew, hLnil]
          simp [List.filter_singleton, hne]
        | some g0 =>
          have hg0n : g0.1 = n := by simpa using List.find?_some hF
          have hg0not : ¬ g0.1 = inst.name := by rw [hg0n]; exact hn
          have hold : lookupGroup groups n = g0.2 := by simp [lookupGroup, hF]
          have hnew : lookupGroup
              (groups.map (fun g => if g.1 = inst.name then (g.1, g.2 ++ [inst]) else g)) n =
              g0.2 := by
            simp [lookupGroup, hfind, hF, hg0not]
          rw [hnew, ← hold, hl n]
          simp [List.filter_singleton, hne]
  case isFalse hany =>
    have hnotmem : inst.name ∉ groups.map Prod.fst := by
      intro hmem
      apply hany
      rw [List.any_eq_true]
      obtain ⟨g, hg, hgn⟩ := List.mem_map.mp hmem
      exact ⟨g, hg, by simp [hgn]⟩
    constructor
    · rw [List.map_append, List.nodup_append]
      refine ⟨hk, by simp, ?_⟩
      intro x hx
      simp only [List.map_cons, List.map_nil, List.mem_singleton]
      intro hx1
      subst hx1
      exact hnotmem hx
    · intro n
      rw [List.filter_append]
      have hfind : (groups ++ [(inst.name, [inst])]).find? (fun g => g.1 = n) =
          ((groups.find? (fun g => g.1 = n)).or
            ([((inst.name : String), [inst])].find? (fun g => g.1 = n))) := List.find?_append
      by_cases hn : n = inst.name
      · have hnone : groups.find? (fun g => g.1 = n) = none := by
          rw [List.find?_eq_none]
          intro g hg
          simp only [decide_eq_true_eq]
          intro hgn
          exact hnotmem (List.mem_map.mpr ⟨g, hg, hgn.trans hn⟩)
        have hold : lookupGroup groups n = [] := by simp [lookupGroup, hnone]
        have hsing : [((inst.name : String), [inst])].find? (fun g => g.1 = n) =
            some (inst.name, [inst]) := by
          simp [List.find?_singleton, hn.symm]
        have hnew : lookupGroup (groups ++ [(inst.name, [inst])]) n = [inst] := by
          simp [lookupGroup, hfind, hnone, hsing]
        have hLnil : L.filter (fun i => i.name = n) = [] := by rw [← hl n]; exact hold
        rw [hnew, hLnil]
        simp [List.filter_singleton, hn]
      · have hne : ¬ (inst.name = n) := fun h => hn h.symm
        have hsing : [((inst.name : String), [inst])].find? (fun g => g.1 = n) = none := by
          simp [List.find?_singleton, hne]
        have hnew : lookupGroup (groups ++ [(inst.name, [inst])]) n = lookupGroup groups n := by
          simp [lookupGroup, hfind, hsing]
        rw [hnew, hl n]
        simp [List.filter_singleton, hne]

theorem foldl_addInstance_invariant (insts : List ServerInstance) :
    ∀ (groups : List (String × List ServerInstance)) (L : List ServerInstance),
    (groups.map Prod.fst).Nodup →
    (∀ n, lookupGroup groups n = L.filter (fun i => i.name = n)) →
    (((insts.foldl addInstance groups).map Prod.fst).Nodup ∧
     (∀ n, lookupGroup (insts.foldl addInstance groups) n =
       (L ++ insts).filter (fun i => i.name = n))) := by
  induction insts with
  | nil =>
    intro groups L hk hl
    simpa using ⟨hk, hl⟩
  | cons i rest ih =>
    intro groups L hk hl
    have h1 := addInstance_invariant i hk hl
    have h2 := ih (addInstance groups i) (L ++ [i]) h1.1 h1.2
    simp only [List.foldl_cons]
    refine ⟨h2.1, ?_⟩
    intro n
    rw [h2.2 n]
    simp

theorem serversByName_eq_foldl (configs : List ConfigRecord) :
    serversByName configs = (allInstances configs).foldl addInstance [] := by
  suffices h : ∀ (cs : List ConfigRecord) (g0 : List (String × List ServerInstance)),
      cs.foldl (fun groups cd =>
        (getServersFromConfig cd.config).foldl
          (fun gs s => addInstance gs (toInstance cd s)) groups) g0 =
      (allInstances cs).foldl addInstance g0 by
    exact h configs []
  intro cs
  induction cs with
  | nil => intro g0; simp [allInstances]
  | cons cd rest ih =>
    intro g0
    simp only [List.foldl_cons, allInstances, List.flatMap_cons, List.foldl_append]
    rw [List.foldl_map]
    exact ih _

theorem serversByName_spec (configs : List ConfigRecord) :
    ((serversByName configs).map Prod.fst).Nodup ∧
    (∀ n, lookupGroup (serversByName configs) n =
      (allInstances configs).filter (fun i => i.name = n)) := by
  rw [serversByName_eq_foldl]
  have h := foldl_addInstance_invariant (allInstances configs) [] []
    (by simp) (fun n => by simp [lookupGroup_nil])
  simpa using h

theorem find?_eq_of_mem_nodup {groups : List (String × List ServerInstance)}
    (hk : (groups.map Prod.fst).Nodup) {n : String} {grp : List ServerInstance}
    (hmem : (n, grp) ∈ groups) :
    groups.find? (fun g => g.1 = n) = some (n, grp) := by
  induction groups with
  | nil => cases hmem
  | cons g gs ih =>
    have hk2 : (g.1 :: gs.map Prod.fst).Nodup := by rw [List.map_cons] at hk; exact hk
    have hcons := List.nodup_cons.mp hk2
    rcases List.mem_cons.mp hmem with heq | htail
    · rw [← heq]
      exact List.find?_cons_of_pos _ (by simp)
    · have hgn : ¬ (g.1 = n) := by
        intro hg
        have hmemfst : n ∈ gs.map Prod.fst := List.mem_map.mpr ⟨(n, grp), htail, rfl⟩
        rw [← hg] at hmemfst
        exact hcons.1 hmemfst
      rw [List.find?_cons_of_neg _ (by simpa using hgn)]
      exact ih hcons.2 htail

theorem lookupGroup_eq_of_mem_nodup {groups : List (String × List ServerInstance)}
    (hk : (groups.map Prod.fst).Nodup) {n : String} {grp : List ServerInstance}
    (hmem : (n, grp) ∈ groups) :
    lookupGroup groups n = grp := by
  simp [lookupGroup, find?_eq_of_mem_nodup hk hmem]

theorem mem_findConflicts {configs : List ConfigRecord} {g : Conflict} :
    g ∈ findConflicts configs ↔
      (g.serverName, g.instances) ∈ serversByName configs ∧ 1 < g.instances.length := by
  simp only [findConflicts, List.mem_filterMap]
  constructor
  · rintro ⟨gr, hgr, hif⟩
    by_cases hlen : gr.2.length > 1
    · rw [if_pos hlen] at hif
      cases hif
      exact ⟨hgr, hlen⟩
    · rw [if_neg hlen] at hif
      cases hif
  · rintro ⟨hmem, hlen⟩
    exact ⟨(g.serverName, g.instances), hmem, by rw [if_pos hlen]⟩

theorem filter_key_length {m : ServerMap} (hnd : (m.map Prod.fst).Nodup) (n : String) :
    (m.filter (fun p => p.1 = n)).length = if m.any (fun p => p.1 = n) then 1 else 0 := by
  induction m with
  | nil => simp
  | cons p rest ih =>
    have hnd2 : (p.1 :: rest.map Prod.fst).Nodup := by
      rw [List.map_cons] at hnd; exact hnd
    have hcons := List.nodup_cons.mp hnd2
    by_cases hp : p.1 = n
    · have hrest : rest.filter (fun q => q.1 = n) = [] := by
        rw [List.filter_eq_nil_iff]
        intro q hq
        simp only [decide_eq_true_eq]
        intro hqn
        exact hcons.1 (by rw [hp, ← hqn]; exact List.mem_map.mpr ⟨q, hq, rfl⟩)
      simp [List.filter_cons, List.any_cons, hp, hrest]
    · have hdec : (decide (p.1 = n)) = false := by simpa using hp
      simp only [List.filter_cons, List.any_cons, hdec, Bool.false_or,
        if_neg (by simp : ¬ (false = true))]
      exact ih hcons.2

theorem filter_name_length_one (cd : ConfigRecord) (n : String)
    (hnd : (cd.config.mcpServers.map Prod.fst).Nodup) :
    (((getServersFromConfig cd.config).map (toInstance cd)).filter
        (fun i => i.name = n)).length =
      if declares cd n then 1 else 0 := by
  rw [List.filter_map, List.length_map, getServersFromConfig, List.filter_map,
    List.length_map]
  exact filter_key_length hnd n

theorem count_filter_allInstances (configs : List ConfigRecord) (n : String)
    (hnd : ∀ cd ∈ configs, (cd.config.mcpServers.map Prod.fst).Nodup) :
    ((allInstances configs).filter (fun i => i.name = n)).length =
      (configs.filter (fun cd => declares cd n)).length := by
  induction configs with
  | nil => simp [allInstances]
  | cons cd rest ih =>
    have hnd1 := hnd cd (List.mem_cons_self _ _)
    have hndr : ∀ c ∈ rest, (c.config.mcpServers.map Prod.fst).Nodup :=
      fun c hc => hnd c (List.mem_cons_of_mem _ hc)
    have ihr := ih hndr
    simp only [allInstances, List.flatMap_cons, List.filter_append, List.length_append]
    simp only [allInstances] at ihr
    rw [ihr, filter_name_length_one cd n hnd1, List.filter_cons]
    by_cases hd : declares cd n
    · simp [hd, Nat.add_comm]
    · simp [hd]

theorem countP_key_le_one {groups : List (String × List ServerInstance)}
    (hk : (groups.map Prod.fst).Nodup) (n : String) :
    groups.countP (fun g => g.1 = n) ≤ 1 := by
  induction groups with
  | nil => simp
  | cons g gs ih =>
    have hk2 : (g.1 :: gs.map Prod.fst).Nodup := by rw [List.map_cons] at hk; exact hk
    have hcons := List.nodup_cons.mp hk2
    rw [List.countP_cons]
    by_cases hg : g.1 = n
    · have hzero : gs.countP (fun g => g.1 = n) = 0 := by
        rw [List.countP_eq_zero]
        intro q hq
        simp only [decide_eq_true_eq]
        intro hqn
        exact hcons.1 (by rw [hg, ← hqn]; exact List.mem_map.mpr ⟨q, hq, rfl⟩)
      simp [hzero, hg]
    · simp [hg, ih hcons.2]

/-- C6: a name declared in exactly one retained DiscoveryRecord appears in
no ConflictGroup; a name declared in `k ≥ 2` distinct records appears in
exactly one ConflictGroup, which holds exactly `k` instances.  (The
hypothesis says each record's entity mapping has no duplicate keys, which
JSON object parsing guarantees.) -/
theorem conflict_symmetry (configs : List ConfigRecord) (n : String)
    (hnd : ∀ cd ∈ configs, (cd.config.mcpServers.map Prod.fst).Nodup) :
    (∀ g ∈ findConflicts configs, ∀ inst ∈ g.instances, inst.name = g.serverName) ∧
    ((findConflicts configs).countP (fun g => g.serverName = n) =
      if 2 ≤ (configs.filter (fun cd => declares cd n)).length then 1 else 0) ∧
    (∀ g ∈ findConflicts configs, g.serverName = n →
      g.instances.length = (configs.filter (fun cd => declares cd n)).length) := by
  obtain ⟨hkeys, hlook⟩ := serversByName_spec configs
  have hgrp : ∀ g : Conflict, g ∈ findConflicts configs →
      g.instances = (allInstances configs).filter (fun i => i.name = g.serverName) := by
    intro g hg
    obtain ⟨hmem, _⟩ := mem_findConflicts.mp hg
    rw [← hlook g.serverName]
    exact (lookupGroup_eq_of_mem_nodup hkeys hmem).symm
  have hkcount := count_filter_allInstances configs n hnd
  refine ⟨?_, ?_, ?_⟩
  · intro g hg inst hinst
    rw [hgrp g hg] at hinst
    simpa using (List.mem_filter.mp hinst).2
  · rw [findConflicts, List.countP_filterMap]
    have hpt : ∀ gr ∈ serversByName configs,
        (((Option.map (fun g : Conflict => decide (g.serverName = n))
          (if gr.2.length > 1 then some ⟨gr.1, gr.2⟩ else none)).getD false) = true ↔
        (decide (gr.1 = n) && decide (gr.2.length > 1)) = true) := by
      intro gr _
      by_cases hl : gr.2.length > 1
      · rw [if_pos hl]
        simp [hl]
      · rw [if_neg hl]
        simp [hl]
    rw [List.countP_congr hpt]
    by_cases hk2 : 2 ≤ (configs.filter (fun cd => declares cd n)).length
    · rw [if_pos hk2]
      have hlen2 : 1 < (lookupGroup (serversByName configs) n).length := by
        rw [hlook n, hkcount]; omega
      have hFsome : ∃ pr, (serversByName configs).find? (fun g => g.1 = n) = some pr := by
        cases hF : (serversByName configs).find? (fun g => g.1 = n) with
        | none =>
          exfalso
          rw [lookupGroup, hF] at hlen2
          simp at hlen2
        | some pr => exact ⟨pr, rfl⟩
      obtain ⟨pr, hF⟩ := hFsome
      have hprn : pr.1 = n := by simpa using List.find?_some hF
      have hprmem : pr ∈ serversByName configs := List.mem_of_find?_eq_some hF
      have hprlook : lookupGroup (serversByName configs) n = pr.2 := by
        simp [lookupGroup, hF]
      refine Nat.le_antisymm ?_ ?_
      · calc (serversByName configs).countP
              (fun gr => decide (gr.1 = n) && decide (gr.2.length > 1))
            ≤ (serversByName configs).countP (fun gr => gr.1 = n) := by
              apply List.countP_mono_left
              intro x _ hx
              exact (Bool.and_eq_true_iff.mp hx).1
          _ ≤ 1 := countP_key_le_one hkeys n
      · rw [Nat.one_le_iff_ne_zero, Ne, List.countP_eq_zero]
        intro hall
        have hlen2' : 1 < pr.2.length := by rw [← hprlook]; exact hlen2
        exact hall pr hprmem (by rw [hprn]; simp [hlen2'])
    · rw [if_neg hk2]
      rw [List.countP_eq_zero]
      intro gr hgr
      simp only [Bool.and_eq_true_iff, decide_eq_true_eq, not_and]
      intro hgrn
      have hmem2 : ((gr.1, gr.2) : String × List ServerInstance) ∈ serversByName configs := hgr
      have hlookgr : lookupGroup (serversByName configs) gr.1 = gr.2 :=
        lookupGroup_eq_of_mem_nodup hkeys hmem2
      have hlen : gr.2.length = (configs.filter (fun cd => declares cd n)).length := by
        rw [← hlookgr, hgrn, hlook n, hkcount]
      omega
  · intro g hg hgn
    rw [hgrp g hg, hgn, hkcount]

/-- Witness for C6 at a concrete record collection. -/
theorem conflict_symmetry_witness :
    (∀ cd ∈ [sampleRecUser, sampleRecProj], (cd.config.mcpServers.map Prod.fst).Nodup) ∧
    ((findConflicts [sampleRecUser, sampleRecProj]).countP
        (fun g => g.serverName = "github") =
      if 2 ≤ (([sampleRecUser, sampleRecProj].filter
          (fun cd => declares cd "github")).length) then 1 else 0) :=
  ⟨by decide, (conflict_symmetry [sampleRecUser, sampleRecProj] "github" (by decide)).2.1⟩

theorem pairwise_of_forall_mem {α : Type} {R : α → α → Prop} {l : List α}
    (h : ∀ a ∈ l, ∀ b ∈ l, R a b) : l.Pairwise R := by
  induction l with
  | nil => exact List.Pairwise.nil
  | cons a t ih =>
    refine List.Pairwise.cons ?_ (ih ?_)
    · exact fun b hb => h a (List.mem_cons_self a t) b (List.mem_cons_of_mem a hb)
    · exact fun x hx y hy => h x (List.mem_cons_of_mem a hx) y (List.mem_cons_of_mem a hy)

theorem instance_fields (cd : ConfigRecord) {i : ServerInstance}
    (hi : i ∈ (getServersFromConfig cd.config).map (toInstance cd)) :
    i.configPath = cd.path ∧ i.scope = cd.scope := by
  obtain ⟨s, _, rfl⟩ := List.mem_map.mp hi
  exact ⟨rfl, rfl⟩

theorem mem_allInstances {configs : List ConfigRecord} {i : ServerInstance} :
    i ∈ allInstances configs ↔
      ∃ cd ∈ configs, i ∈ (getServersFromConfig cd.config).map (toInstance cd) := by
  simp only [allInstances, List.mem_flatMap]

theorem sorted_allInstances : ∀ {configs : List ConfigRecord},
    List.Pairwise pathLenLe configs → (allInstances configs).Pairwise instPathLenLe := by
  intro configs
  induction configs with
  | nil =>
    intro _
    exact List.Pairwise.nil
  | cons cd rest ih =>
    intro hp
    obtain ⟨hhead, htail⟩ := List.pairwise_cons.mp hp
    simp only [allInstances, List.flatMap_cons]
    rw [List.pairwise_append]
    refine ⟨?_, ?_, ?_⟩
    · apply pairwise_of_forall_mem
      intro a ha b hb
      have hA := (instance_fields cd ha).1
      have hB := (instance_fields cd hb).1
      simp only [instPathLenLe, hA, hB]
      exact Nat.le_refl _
    · exact ih htail
    · intro x hx y hy
      obtain ⟨cd', hcd', hy'⟩ := mem_allInstances.mp hy
      have hX := (instance_fields cd hx).1
      have hY := (instance_fields cd' hy').1
      simp only [instPathLenLe, hX, hY]
      exact hhead cd' hcd'

theorem enumFrom_concat_tags {α : Type} :
    ∀ (l : List α) (x : α) (s : Nat),
    (List.enumFrom s (l ++ [x])).map (fun p => (p.2, decide (p.1 = s + l.length))) =
      l.map (fun i => (i, false)) ++ [(x, true)] := by
  intro l
  induction l with
  | nil =>
    intro x s
    simp
  | cons a t ih =>
    intro x s
    have hpred : ∀ p : Nat × α,
        (decide (p.1 = s + (a :: t).length)) = (decide (p.1 = (s + 1) + t.length)) := by
      intro p
      have : s + (a :: t).length = (s + 1) + t.length := by
        simp only [List.length_cons]
        omega
      rw [this]
    simp only [List.cons_append, List.enumFrom_cons, List.map_cons]
    have hhead : (decide (s = s + (a :: t).length)) = false := by
      apply decide_eq_false
      simp only [List.length_cons]
      omega
    rw [hhead]
    have htail : (List.enumFrom (s + 1) (t ++ [x])).map
          (fun p => (p.2, decide (p.1 = s + (a :: t).length))) =
        (List.enumFrom (s + 1) (t ++ [x])).map
          (fun p => (p.2, decide (p.1 = (s + 1) + t.length))) := by
      apply List.map_congr_left
      intro p _
      rw [hpred p]
    rw [htail, ih x (s + 1)]

theorem conflictTags_concat (nm : String) (l : List ServerInstance) (x : ServerInstance) :
    conflictTags ⟨nm, l ++ [x]⟩ = l.map (fun i => (i, false)) ++ [(x, true)] := by
  have hlen : ((⟨nm, l ++ [x]⟩ : Conflict).instances.length - 1) = 0 + l.length := by
    simp
  simp only [conflictTags, List.enum]
  rw [show (fun p : Nat × ServerInstance =>
      (p.2, decide (p.1 = (l ++ [x]).length - 1))) =
    (fun p : Nat × ServerInstance => (p.2, decide (p.1 = 0 + l.length))) from ?_]
  · exact enumFrom_concat_tags l x 0
  · funext p
    have : (l ++ [x]).length - 1 = 0 + l.length := by simp
    rw [this]

/-- C1: every ConflictGroup emitted by the conflicts command has more than
one instance, its instances are in ascending declaring-path-length order,
and `displayConflicts` tags exactly the last instance as active (all others
overridden); that last instance's declaring path length is maximal in the
group. -/
theorem winner_is_last (fs : FS) (maxDepth : Nat) :
    ∀ g ∈ findConflicts (findAllMCPConfigs fs maxDepth).1,
      1 < g.instances.length ∧
      g.instances.Pairwise instPathLenLe ∧
      ∃ lastInst, g.instances.getLast? = some lastInst ∧
        conflictTags g =
          (g.instances.dropLast.map (fun i => (i, false))) ++ [(lastInst, true)] ∧
        ∀ inst ∈ g.instances, inst.configPath.length ≤ lastInst.configPath.length := by
  intro g hg
  have hsorted : List.Sorted pathLenLe (findAllMCPConfigs fs maxDepth).1 :=
    List.sorted_insertionSort _ _
  obtain ⟨hkeys, hlook⟩ := serversByName_spec (findAllMCPConfigs fs maxDepth).1
  obtain ⟨hmem, hlen⟩ := mem_findConflicts.mp hg
  have hgrp : g.instances =
      (allInstances (findAllMCPConfigs fs maxDepth).1).filter
        (fun i => i.name = g.serverName) := by
    rw [← hlook g.serverName]
    exact (lookupGroup_eq_of_mem_nodup hkeys hmem).symm
  have hpair : g.instances.Pairwise instPathLenLe := by
    rw [hgrp]
    exact (sorted_allInstances hsorted).filter _
  have hne : g.instances ≠ [] := by
    intro h
    rw [h] at hlen
    simp at hlen
  refine ⟨hlen, hpair, g.instances.getLast hne, List.getLast?_eq_getLast _ hne, ?_, ?_⟩
  · have hsplit : g.instances.dropLast ++ [g.instances.getLast hne] = g.instances :=
      List.dropLast_append_getLast hne
    calc conflictTags g
        = conflictTags ⟨g.serverName, g.instances.dropLast ++ [g.instances.getLast hne]⟩ := by
          rw [hsplit]
      _ = g.instances.dropLast.map (fun i => (i, false)) ++
          [(g.instances.getLast hne, true)] := conflictTags_concat _ _ _
  · intro inst hinst
    have hsplit : g.instances.dropLast ++ [g.instances.getLast hne] = g.instances :=
      List.dropLast_append_getLast hne
    rw [← hsplit] at hinst hpair
    rcases List.mem_append.mp hinst with h1 | h2
    · exact (List.pairwise_append.mp hpair).2.2 inst h1 _ (List.mem_singleton_self _)
    · rw [List.mem_singleton.mp h2]

/-- Witness for C1 at a concrete environment with one conflict. -/
theorem winner_is_last_witness :
    (⟨"github",
      [⟨"github", "stdio", some "npx", [], "/h", "user"⟩,
       ⟨"github", "stdio", some "npx", [], "/h/p", "workspace"⟩]⟩ : Conflict) ∈
      findConflicts (findAllMCPConfigs sampleFS 4).1 ∧
    1 < (⟨"github",
      [⟨"github", "stdio", some "npx", [], "/h", "user"⟩,
       ⟨"github", "stdio", some "npx", [], "/h/p", "workspace"⟩]⟩ : Conflict).instances.length :=
  ⟨by decide,
    (winner_is_last sampleFS 4
      ⟨"github",
        [⟨"github", "stdio", some "npx", [], "/h", "user"⟩,
         ⟨"github", "stdio", some "npx", [], "/h/p", "workspace"⟩]⟩ (by decide)).1⟩

/-! ### Walker invariants -/

theorem scanInv_refl (home : String) (maxDepth depth : Nat) (st : ScanState) :
    ScanInv home maxDepth depth st st :=
  ⟨fun _ h => h, ⟨[], by simp, by simp⟩, ⟨[], by simp, by simp⟩, fun h => h⟩

theorem scanInv_trans {home : String} {maxDepth depth : Nat} {st1 st2 st3 : ScanState}
    (h12 : ScanInv home maxDepth depth st1 st2)
    (h23 : ScanInv home maxDepth depth st2 st3) :
    ScanInv home maxDepth depth st1 st3 := by
  obtain ⟨v12, ⟨nr12, hr12, hb12⟩, ⟨nc12, hc12, hs12⟩, g12⟩ := h12
  obtain ⟨v23, ⟨nr23, hr23, hb23⟩, ⟨nc23, hc23, hs23⟩, g23⟩ := h23
  refine ⟨fun p hp => v23 p (v12 p hp), ⟨nr12 ++ nr23, ?_, ?_⟩,
    ⟨nc12 ++ nc23, ?_, ?_⟩, fun h => g23 (g12 h)⟩
  · rw [hr23, hr12, List.append_assoc]
  · intro pd hpd
    rcases List.mem_append.mp hpd with h | h
    · exact hb12 pd h
    · exact hb23 pd h
  · rw [hc23, hc12, List.append_assoc]
  · intro c hc
    rcases List.mem_append.mp hc with h | h
    · exact hs12 c h
    · exact hs23 c h

theorem scanInv_mono_depth {home : String} {maxDepth d dd : Nat} {st st' : ScanState}
    (hd : d ≤ dd) (h : ScanInv home maxDepth dd st st') :
    ScanInv home maxDepth d st st' := by
  obtain ⟨v, ⟨nr, hr, hb⟩, hc, g⟩ := h
  exact ⟨v, ⟨nr, hr, fun pd hpd => ⟨Nat.le_trans hd (hb pd hpd).1, (hb pd hpd).2⟩⟩, hc, g⟩

theorem scanInv_mark {home : String} {maxDepth depth : Nat} {st : ScanState} {dir : String}
    (hnot : dir ∉ st.visited) (hle : depth ≤ maxDepth) :
    ScanInv home maxDepth depth st
      { st with visited := dir :: st.visited, reads := st.reads ++ [(dir, depth)] } := by
  refine ⟨fun p hp => List.mem_cons_of_mem _ hp,
    ⟨[(dir, depth)], rfl, ?_⟩, ⟨[], by simp, by simp⟩, ?_⟩
  · intro pd hpd
    rw [List.mem_singleton.mp hpd]
    exact ⟨Nat.le_refl _, hle⟩
  · rintro ⟨hnd, hsub⟩
    constructor
    · rw [List.map_append, List.nodup_append]
      refine ⟨hnd, by simp, ?_⟩
      intro p hp hmem
      simp only [List.map_cons, List.map_nil, List.mem_singleton] at hmem
      rw [hmem] at hp
      exact hnot (hsub dir hp)
    · intro p hp
      rw [List.map_append] at hp
      rcases List.mem_append.mp hp with h | h
      · exact List.mem_cons_of_mem _ (hsub p h)
      · simp only [List.map_cons, List.map_nil, List.mem_singleton] at h
        rw [h]
        exact List.mem_cons_self _ _

theorem scanInv_push {home : String} {maxDepth depth : Nat} {st : ScanState}
    {c : ConfigRecord} (hok : scopeOKRecord home c) :
    ScanInv home maxDepth depth st { st with configs := st.configs ++ [c] } :=
  ⟨fun _ h => h, ⟨[], by simp, by simp⟩,
   ⟨[c], rfl, fun x hx => by rw [List.mem_singleton.mp hx]; exact hok⟩,
   fun h => h⟩

theorem isMCPConfigFile_ne_project {f : String} (h : isMCPConfigFile f = true) :
    ¬ (f = ".claude.json (project)") := by
  intro hf
  rw [hf] at h
  exact absurd h (by decide)

theorem scanEntries_cons_eq (home : String) (maxDepth : Nat) (dir file : String)
    (node : FSNode) (rest : List (String × FSNode)) (depth : Nat) (st : ScanState) :
    scanEntries home maxDepth dir ((file, node) :: rest) depth st =
      scanEntries home maxDepth dir rest depth
        (scanEntryStep home maxDepth dir file node depth st) := rfl

theorem scanEntry_step_inv (home : String) (maxDepth : Nat) (dir file : String)
    (node : FSNode) (depth : Nat) (st : ScanState)
    (hrec : ScanInv home maxDepth (depth + 1) st
      (scanDirectory home maxDepth (dir ++ "/" ++ file) node (depth + 1) st)) :
    ScanInv home maxDepth depth st
      (scanEntryStep home maxDepth dir file node depth st) := by
  rw [scanEntryStep]
  split
  · exact scanInv_refl _ _ _ _
  · revert hrec
    cases node with
    | badEntry => exact fun _ => scanInv_refl _ _ _ _
    | file content =>
      intro hrec
      show ScanInv home maxDepth depth st
        (if isMCPConfigFile file then
          match parseMCPConfig content file with
          | some config =>
            { st with configs := st.configs ++
                [{ path := dir, configPath := dir ++ "/" ++ file, config := config,
                   scope := determineScope home dir, configType := file }] }
          | none => st
        else st)
      by_cases hf : isMCPConfigFile file = true
      · rw [if_pos hf]
        cases hp : parseMCPConfig content file with
        | some config =>
          refine scanInv_push ?_
          show determineScope home dir =
            if file = ".claude.json (project)" then "workspace" else determineScope home dir
          rw [if_neg (isMCPConfigFile_ne_project hf)]
        | none => exact scanInv_refl _ _ _ _
      · rw [if_neg hf]
        exact scanInv_refl _ _ _ _
    | dir entries =>
      intro hrec
      show ScanInv home maxDepth depth st
        (if depth < maxDepth && shouldScanDirectory file then
          scanDirectory home maxDepth (dir ++ "/" ++ file) (FSNode.dir entries) (depth + 1) st
        else st)
      split
      · exact scanInv_mono_depth (Nat.le_succ depth) hrec
      · exact scanInv_refl _ _ _ _
    | badDir =>
      intro hrec
      show ScanInv home maxDepth depth st
        (if depth < maxDepth && shouldScanDirectory file then
          scanDirectory home maxDepth (dir ++ "/" ++ file) FSNode.badDir (depth + 1) st
        else st)
      split
      · exact scanInv_mono_depth (Nat.le_succ depth) hrec
      · exact scanInv_refl _ _ _ _

theorem scanDirectory_inv (home : String) (maxDepth : Nat) (dir : String) (node : FSNode)
    (depth : Nat) (st : ScanState) :
    ScanInv home maxDepth depth st (scanDirectory home maxDepth dir node depth st) := by
  refine scanDirectory.induct home maxDepth
    (fun dir node depth st =>
      ScanInv home maxDepth depth st (scanDirectory home maxDepth dir node depth st))
    (fun dir entries depth st =>
      ScanInv home maxDepth depth st (scanEntries home maxDepth dir entries depth st))
    ?_ ?_ ?_ ?_ ?_ ?_ ?_ dir node depth st
  · intro t dir depth st hguard
    rw [scanDirectory, if_pos hguard]
    exact scanInv_refl _ _ _ _
  · intro dir depth st hguard st1 entries hm2
    have hle : depth ≤ maxDepth := by
      by_contra hgt
      apply hguard
      rw [Bool.or_eq_true]
      exact Or.inl (decide_eq_true (Nat.lt_of_not_le hgt))
    have hnot : dir ∉ st.visited := by
      intro hmem
      apply hguard
      rw [Bool.or_eq_true]
      right
      simpa using hmem
    rw [scanDirectory, if_neg hguard]
    exact scanInv_trans (scanInv_mark hnot hle) hm2
  · intro dir depth st hguard content
    have hle : depth ≤ maxDepth := by
      by_contra hgt
      apply hguard
      rw [Bool.or_eq_true]
      exact Or.inl (decide_eq_true (Nat.lt_of_not_le hgt))
    have hnot : dir ∉ st.visited := by
      intro hmem
      apply hguard
      rw [Bool.or_eq_true]
      right
      simpa using hmem
    rw [scanDirectory, if_neg hguard]
    exact scanInv_mark hnot hle
  · intro dir depth st hguard
    have hle : depth ≤ maxDepth := by
      by_contra hgt
      apply hguard
      rw [Bool.or_eq_true]
      exact Or.inl (decide_eq_true (Nat.lt_of_not_le hgt))
    have hnot : dir ∉ st.visited := by
      intro hmem
      apply hguard
      rw [Bool.or_eq_true]
      right
      simpa using hmem
    rw [scanDirectory, if_neg hguard]
    exact scanInv_mark hnot hle
  · intro dir depth st hguard
    have hle : depth ≤ maxDepth := by
      by_contra hgt
      apply hguard
      rw [Bool.or_eq_true]
      exact Or.inl (decide_eq_true (Nat.lt_of_not_le hgt))
    have hnot : dir ∉ st.visited := by
      intro hmem
      apply hguard
      rw [Bool.or_eq_true]
      right
      simpa using hmem
    rw [scanDirectory, if_neg hguard]
    exact scanInv_mark hnot hle
  · intro dir depth st
    rw [scanEntries]
    exact scanInv_refl _ _ _ _
  · intro dir depth st file node rest st' hm1 hm2
    rw [scanEntries_cons_eq]
    refine scanInv_trans ?_ hm2
    exact scanEntry_step_inv home maxDepth dir file node depth st hm1

theorem scanFold_inv (fs : FS) (maxDepth : Nat) :
    ∀ (dirs : List String) (st : ScanState),
    ScanInv fs.home maxDepth 0 st
      (dirs.foldl (fun st dir =>
        match fs.seedNode dir with
        | some node => scanDirectory fs.home maxDepth dir node 0 st
        | none => st) st) := by
  intro dirs
  induction dirs with
  | nil => intro st; exact scanInv_refl _ _ _ _
  | cons d rest ih =>
    intro st
    rw [List.foldl_cons]
    refine scanInv_trans ?_ (ih _)
    cases hseed : fs.seedNode d with
    | some node => exact scanDirectory_inv _ _ _ _ _ _
    | none => exact scanInv_refl _ _ _ _

theorem claudeResult_scopeOK (fs : FS) :
    ∀ c ∈ (claudeResult fs).1, scopeOKRecord fs.home c := by
  intro c hc
  rw [claudeResult] at hc
  cases hcfg : fs.claudeCfg with
  | none =>
    rw [hcfg] at hc
    cases hc
  | some content =>
    rw [hcfg] at hc
    cases content with
    | error msg => simp [parseClaudeConfig] at hc
    | ok raw =>
      simp only [parseClaudeConfig] at hc
      rcases List.mem_append.mp hc with h1 | h2
      · cases hms : raw.mcpServers with
        | none =>
          rw [hms] at h1
          cases h1
        | some servers =>
          rw [hms] at h1
          have h1x : c ∈ (if servers.length > 0 then
              [{ path := fs.home, configPath := fs.home ++ "/.claude.json",
                 config := ⟨servers⟩, scope := "user",
                 configType := ".claude.json" }] else ([] : List ConfigRecord)) := h1
          by_cases hlen : servers.length > 0
          · rw [if_pos hlen] at h1x
            rw [List.mem_singleton.mp h1x]
            show "user" = if (".claude.json" : String) = ".claude.json (project)"
              then "workspace" else determineScope fs.home fs.home
            rw [if_neg (by decide)]
            simp [determineScope]
          · rw [if_neg hlen] at h1x
            cases h1x
      · cases hpj : raw.projects with
        | none =>
          rw [hpj] at h2
          cases h2
        | some projects =>
          rw [hpj] at h2
          obtain ⟨pr, _, heq⟩ := List.mem_filterMap.mp h2
          cases hpr2 : pr.2 with
          | none =>
            rw [hpr2] at heq
            cases heq
          | some servers =>
            rw [hpr2] at heq
            have heqx : (if servers.length > 0 then
                (if fs.existsOnDisk pr.1 || pr.1.toList.contains '/' then
                  some { path := pr.1, configPath := fs.home ++ "/.claude.json",
                         config := ⟨servers⟩, scope := "workspace",
                         configType := ".claude.json (project)" }
                 else none)
                else none) = some c := heq
            by_cases hlen : servers.length > 0
            · rw [if_pos hlen] at heqx
              by_cases hacc : (fs.existsOnDisk pr.1 || pr.1.toList.contains '/') = true
              · rw [if_pos hacc] at heqx
                cases heqx
                show "workspace" = if (".claude.json (project)" : String) = ".claude.json (project)"
                  then "workspace" else determineScope fs.home pr.1
                rw [if_pos rfl]
              · rw [if_neg hacc] at heqx
                cases heqx
            · rw [if_neg hlen] at heqx
              cases heqx

theorem rawConfigs_scopeOK (fs : FS) (maxDepth : Nat) :
    ∀ c ∈ rawConfigs fs maxDepth, scopeOKRecord fs.home c := by
  intro c hc
  simp only [rawConfigs, discoveryState] at hc
  obtain ⟨_, _, ⟨nc, hcfg, hscope⟩, _⟩ := scanFold_inv fs maxDepth (commonDirs fs)
    { visited := [], configs := (claudeResult fs).1, reads := [] }
  rw [hcfg] at hc
  rcases List.mem_append.mp hc with h | h
  · exact claudeResult_scopeOK fs c h
  · exact hscope c h

/-- C3 (amended): in every surfaced DiscoveryRecord, project entries of the
primary registry always carry scope `workspace` (whatever their path), and
every other record's scope is `determineScope` of its directory path — the
plain string-`startsWith` classification, not true directory descent. -/
theorem scope_classification (fs : FS) (maxDepth : Nat) :
    ∀ c ∈ (findAllMCPConfigs fs maxDepth).1,
      c.scope = if c.configType = ".claude.json (project)" then "workspace"
                else determineScope fs.home c.path := by
  intro c hc
  have hperm : ((findAllMCPConfigs fs maxDepth).1).Perm
      (uniqueConfigs (rawConfigs fs maxDepth)) := List.perm_insertionSort _ _
  have hmem : c ∈ rawConfigs fs maxDepth :=
    mem_of_mem_uniqueConfigs (hperm.mem_iff.mp hc)
  exact rawConfigs_scopeOK fs maxDepth c hmem

/-- Witness for C3's amended statement at a concrete environment. -/
theorem scope_classification_witness :
    sampleRecProj ∈ (findAllMCPConfigs sampleFS 4).1 ∧
    sampleRecProj.scope = (if sampleRecProj.configType = ".claude.json (project)"
      then "workspace" else determineScope sampleFS.home sampleRecProj.path) :=
  ⟨by decide, scope_classification sampleFS 4 sampleRecProj (by decide)⟩

/-- C3 counterexample: the claim as stated fails on the code.  A project
entry of the primary registry whose path `/etc/proj` is outside the home
directory `/home/u` is surfaced with scope `workspace`, although the claim
demands `system` for any path that is neither the home directory nor a
proper descendant of it.  Moreover `determineScope` classifies `/home/ux` —
a mere string-prefix sibling of home, not a descendant — as `workspace`. -/
theorem scope_claim_counterexample :
    (findAllMCPConfigs outsideProjectFS 4).1.map (fun c => (c.path, c.scope)) =
      [("/etc/proj", "workspace")] ∧
    ("/etc/proj" ≠ "/home/u") ∧
    (jsStartsWith "/etc/proj" ("/home/u" ++ "/") = false) ∧
    (determineScope "/home/u" "/home/ux" = "workspace") ∧
    (jsStartsWith "/home/ux" ("/home/u" ++ "/") = false) ∧
    ("/home/ux" ≠ "/home/u") := by
  refine ⟨by decide, by decide, by decide, by decide, by decide, by decide⟩

/-- C9: the walker never reads a directory deeper than `maxDepth` levels
below its seed, and never reads the same directory path twice in one run
(the `reads` ghost log records every `readdirSync` attempt with its
recursion depth).  Termination on every finite tree is witnessed by
`scanDirectory` being a total function over the inductive `FSNode`. -/
theorem walker_depth_and_no_revisit (fs : FS) (maxDepth : Nat) :
    (∀ pd ∈ (discoveryState fs maxDepth).reads, pd.2 ≤ maxDepth) ∧
    ((discoveryState fs maxDepth).reads.map Prod.fst).Nodup := by
  obtain ⟨_, ⟨nr, hr, hb⟩, _, hg⟩ := scanFold_inv fs maxDepth (commonDirs fs)
    { visited := [], configs := (claudeResult fs).1, reads := [] }
  have hreads : (discoveryState fs maxDepth).reads = nr := by
    simp only [discoveryState]
    rw [hr]
    simp
  constructor
  · intro pd hpd
    rw [hreads] at hpd
    exact (hb pd hpd).2
  · have hgood : GoodReads (discoveryState fs maxDepth) := by
      simp only [discoveryState]
      exact hg ⟨by simp, by simp⟩
    exact hgood.1

/-- Witness for C9 at a concrete environment with a nested directory. -/
theorem walker_depth_witness :
    (("/w/sub", 1) ∈ (discoveryState sampleWalkFS 4).reads) ∧ 1 ≤ 4 :=
  ⟨by decide,
    (walker_depth_and_no_revisit sampleWalkFS 4).1 ("/w/sub", 1) (by decide)⟩

/-- C2 (amended): all five filenames are recognized by `isMCPConfigFile`,
and the three dot-prefixed names parse and normalize a non-empty mapping
under their format's top-level key into the canonical `mcpServers` shape;
but `mcp.json` and `claude.json` fall through `parseMCPConfig` to `null`
for every possible content, so files with those names never contribute a
DiscoveryRecord. -/
theorem recognized_formats (content : Except String RawJson) (raw : RawJson)
    (servers : ServerMap) :
    (isMCPConfigFile ".claude.json" = true ∧ isMCPConfigFile ".mcp.json" = true ∧
     isMCPConfigFile ".claude_mcp_config.json" = true ∧
     isMCPConfigFile "mcp.json" = true ∧ isMCPConfigFile "claude.json" = true) ∧
    parseMCPConfig content "mcp.json" = none ∧
    parseMCPConfig content "claude.json" = none ∧
    (raw.mcpServers = some servers → 0 < servers.length →
      parseMCPConfig (Except.ok raw) ".claude.json" = some ⟨servers⟩ ∧
      parseMCPConfig (Except.ok raw) ".claude_mcp_config.json" = some ⟨servers⟩) ∧
    (raw.servers = some servers → 0 < servers.length →
      parseMCPConfig (Except.ok raw) ".mcp.json" = some ⟨servers⟩) := by
  refine ⟨⟨rfl, rfl, rfl, rfl, rfl⟩, ?_, ?_, ?_, ?_⟩
  · cases content with
    | error m => rfl
    | ok r => rfl
  · cases content with
    | error m => rfl
    | ok r => rfl
  · intro hms hlen
    constructor
    · simp [parseMCPConfig, hms, hlen]
    · simp [parseMCPConfig, hms, hlen]
  · intro hsv hlen
    simp [parseMCPConfig, hsv, hlen]

/-- C2 counterexample: a file named `mcp.json` (or `claude.json`) holding a
non-empty entity mapping under both candidate top-level keys is recognized
by the filename check yet parses to nothing, and a run whose only candidate
file is such an `mcp.json` produces an empty DiscoveryRecord collection. -/
theorem recognized_formats_counterexample :
    isMCPConfigFile "mcp.json" = true ∧
    isMCPConfigFile "claude.json" = true ∧
    rawBothKeys.mcpServers = some [("github", sampleDecl)] ∧
    rawBothKeys.servers = some [("github", sampleDecl)] ∧
    parseMCPConfig (Except.ok rawBothKeys) "mcp.json" = none ∧
    parseMCPConfig (Except.ok rawBothKeys) "claude.json" = none ∧
    (findAllMCPConfigs mcpJsonOnlyFS 4).1 = [] :=
  ⟨rfl, rfl, rfl, rfl, rfl, rfl, rfl⟩

/-- Witness for C2's amended statement. -/
theorem recognized_formats_witness :
    (rawBothKeys.mcpServers = some [("github", sampleDecl)] ∧
     0 < ([("github", sampleDecl)] : ServerMap).length) ∧
    parseMCPConfig (Except.ok rawBothKeys) ".claude.json" =
      some ⟨[("github", sampleDecl)]⟩ :=
  ⟨⟨rfl, by decide⟩,
    ((recognized_formats (Except.ok rawBothKeys) rawBothKeys
        [("github", sampleDecl)]).2.2.2.1 rfl (by decide)).1⟩

/-- C7: a failed read/decode or an empty normalized mapping contributes no
config (hence no EntityDeclarations and no DiscoveryRecord) for every
recognized filename; only the primary registry's failure writes a
diagnostic line, and a run's error stream is exactly that one line when the
registry read fails and empty in every other case. -/
theorem silent_failure_policy (msg : String) (filename : String) (raw : RawJson) (fs : FS)
    (maxDepth : Nat) :
    parseMCPConfig (Except.error msg) filename = none ∧
    ((raw.mcpServers = none ∨ raw.mcpServers = some []) →
     (raw.servers = none ∨ raw.servers = some []) →
     ∀ f : String, parseMCPConfig (Except.ok raw) f = none) ∧
    parseClaudeConfig fs.home fs.existsOnDisk (fs.home ++ "/.claude.json")
        (Except.error msg) = ([], ["Error reading Claude config: " ++ msg]) ∧
    ((findAllMCPConfigs fs maxDepth).2 =
      match fs.claudeCfg with
      | some (Except.error m) => ["Error reading Claude config: " ++ m]
      | _ => []) := by
  refine ⟨rfl, ?_, rfl, ?_⟩
  · intro hms hsv f
    show (if f = ".claude.json" then
        match raw.mcpServers with
        | some servers => if servers.length > 0 then some (⟨servers⟩ : Config) else none
        | none => none
      else if f = ".mcp.json" then
        match raw.servers with
        | some servers => if servers.length > 0 then some (⟨servers⟩ : Config) else none
        | none => none
      else if f = ".claude_mcp_config.json" then
        match raw.mcpServers with
        | some servers => if servers.length > 0 then some (⟨servers⟩ : Config) else none
        | none => none
      else none) = none
    split_ifs
    · rcases hms with h | h <;> simp [h]
    · rcases hsv with h | h <;> simp [h]
    · rcases hms with h | h <;> simp [h]
    · rfl
  · show (claudeResult fs).2 = _
    rw [claudeResult]
    cases hcfg : fs.claudeCfg with
    | none => rfl
    | some content =>
      cases content with
      | error m => rfl
      | ok r => rfl

/-- Witness for C7 at an empty parse result. -/
theorem silent_failure_policy_witness :
    (((⟨none, none, none⟩ : RawJson).mcpServers = none ∨
      (⟨none, none, none⟩ : RawJson).mcpServers = some []) ∧
     ((⟨none, none, none⟩ : RawJson).servers = none ∨
      (⟨none, none, none⟩ : RawJson).servers = some [])) ∧
    parseMCPConfig (Except.ok ⟨none, none, none⟩) ".mcp.json" = none :=
  ⟨⟨Or.inl rfl, Or.inl rfl⟩,
    (silent_failure_policy "boom" ".mcp.json" ⟨none, none, none⟩ sampleFS 4).2.1
      (Or.inl rfl) (Or.inl rfl) ".mcp.json"⟩

/-- C10: each extracted declaration reports type `unknown` whenever the
declared `type` field is absent or falsy (e.g. the empty string), reports
`env` as the empty object whenever the `env` field is absent or falsy, and
passes a truthy `type` and `env` through unchanged. -/
theorem server_field_defaults (config : Config) (nm : String) (s : ServerDecl)
    (hmem : (nm, s) ∈ config.mcpServers) :
    ∃ out ∈ getServersFromConfig config,
      out.name = nm ∧ out.command = s.command ∧
      ((s.type = none ∨ s.type = some "") → out.type = "unknown") ∧
      (∀ t, s.type = some t → t ≠ "" → out.type = t) ∧
      (s.env = none → out.env = []) ∧
      (∀ e, s.env = some e → out.env = e) := by
  refine ⟨_, List.mem_map.mpr ⟨(nm, s), hmem, rfl⟩, rfl, rfl, ?_, ?_, ?_, ?_⟩
  · rintro (h | h) <;> simp [h]
  · intro t ht hne
    simp [ht, hne]
  · intro h
    simp [h]
  · intro e he
    simp [he]

/-- Witness for C10 at a declaration with a falsy (empty string) type. -/
theorem server_field_defaults_witness :
    (("github", (⟨some "", none, none⟩ : ServerDecl)) ∈
      (⟨[("github", ⟨some "", none, none⟩)]⟩ : Config).mcpServers) ∧
    ∃ out ∈ getServersFromConfig ⟨[("github", ⟨some "", none, none⟩)]⟩,
      out.name = "github" ∧ out.command = (⟨some "", none, none⟩ : ServerDecl).command ∧
      (((⟨some "", none, none⟩ : ServerDecl).type = none ∨
        (⟨some "", none, none⟩ : ServerDecl).type = some "") → out.type = "unknown") ∧
      (∀ t, (⟨some "", none, none⟩ : ServerDecl).type = some t → t ≠ "" → out.type = t) ∧
      ((⟨some "", none, none⟩ : ServerDecl).env = none → out.env = []) ∧
      (∀ e, (⟨some "", none, none⟩ : ServerDecl).env = some e → out.env = e) :=
  ⟨by decide,
    server_field_defaults ⟨[("github", ⟨some "", none, none⟩)]⟩ "github"
      ⟨some "", none, none⟩ (by decide)⟩

theorem parseClaude_project_mem {home : String} {ex : String → Bool} {cp : String}
    {raw : RawJson} {r : ConfigRecord}
    (hr : r ∈ (parseClaudeConfig home ex cp (Except.ok raw)).1)
    (hrt : r.configType = ".claude.json (project)") :
    ∃ pr ∈ raw.projects.getD [], ∃ servers, pr.2 = some servers ∧ 0 < servers.length ∧
      (ex pr.1 = true ∨ pr.1.toList.contains '/' = true) ∧
      r = { path := pr.1, configPath := cp, config := ⟨servers⟩,
            scope := "workspace", configType := ".claude.json (project)" } := by
  simp only [parseClaudeConfig] at hr
  rcases List.mem_append.mp hr with h1 | h2
  · exfalso
    cases hms : raw.mcpServers with
    | none =>
      rw [hms] at h1
      cases h1
    | some servers =>
      rw [hms] at h1
      have h1x : r ∈ (if servers.length > 0 then
          [{ path := home, configPath := cp, config := ⟨servers⟩, scope := "user",
             configType := ".claude.json" }] else ([] : List ConfigRecord)) := h1
      by_cases hlen : servers.length > 0
      · rw [if_pos hlen] at h1x
        rw [List.mem_singleton.mp h1x] at hrt
        simp at hrt
      · rw [if_neg hlen] at h1x
        cases h1x
  · cases hpj : raw.projects with
    | none =>
      rw [hpj] at h2
      cases h2
    | some projects =>
      rw [hpj] at h2
      obtain ⟨pr, hpr, heq⟩ := List.mem_filterMap.mp h2
      refine ⟨pr, hpr, ?_⟩
      cases hpr2 : pr.2 with
      | none =>
        rw [hpr2] at heq
        cases heq
      | some servers =>
        rw [hpr2] at heq
        have heqx : (if servers.length > 0 then
            (if ex pr.1 || pr.1.toList.contains '/' then
              some { path := pr.1, configPath := cp, config := ⟨servers⟩,
                     scope := "workspace", configType := ".claude.json (project)" }
             else none) else none) = some r := heq
        by_cases hlen : servers.length > 0
        · rw [if_pos hlen] at heqx
          by_cases hacc : (ex pr.1 || pr.1.toList.contains '/') = true
          · rw [if_pos hacc] at heqx
            rw [Bool.or_eq_true] at hacc
            exact ⟨servers, rfl, hlen, hacc, (Option.some.inj heqx).symm⟩
          · rw [if_neg hacc] at heqx
            cases heqx
        · rw [if_neg hlen] at heqx
          cases heqx

theorem parseClaude_project_mem_of {home : String} {ex : String → Bool} {cp : String}
    {raw : RawJson} {p : String} {servers : ServerMap}
    (hpr : (p, some servers) ∈ raw.projects.getD [])
    (hlen : 0 < servers.length)
    (hacc : ex p = true ∨ p.toList.contains '/' = true) :
    ({ path := p, configPath := cp, config := ⟨servers⟩, scope := "workspace",
       configType := ".claude.json (project)" } : ConfigRecord) ∈
      (parseClaudeConfig home ex cp (Except.ok raw)).1 := by
  cases hpj : raw.projects with
  | none =>
    rw [hpj] at hpr
    cases hpr
  | some projects =>
    rw [hpj] at hpr
    have hpr2 : (p, some servers) ∈ projects := hpr
    simp only [parseClaudeConfig]
    apply List.mem_append.mpr
    right
    rw [hpj]
    apply List.mem_filterMap.mpr
    refine ⟨(p, some servers), hpr2, ?_⟩
    show (if servers.length > 0 then
        (if ex p || p.toList.contains '/' then
          some ({ path := p, configPath := cp, config := ⟨servers⟩,
                  scope := "workspace",
                  configType := ".claude.json (project)" } : ConfigRecord)
         else none) else none) =
      some ({ path := p, configPath := cp, config := ⟨servers⟩,
              scope := "workspace",
              configType := ".claude.json (project)" } : ConfigRecord)
    rw [if_pos hlen, if_pos (by rw [Bool.or_eq_true]; exact hacc)]

/-- C8: an entry of the primary registry's per-project mapping produces a
workspace-scoped DiscoveryRecord if and only if its entity mapping is
non-empty and its path exists on disk or contains a `/` separator; and
every such project record carries scope `workspace`. -/
theorem project_acceptance (home : String) (ex : String → Bool) (cp : String)
    (raw : RawJson) (p : String) :
    ((∃ r ∈ (parseClaudeConfig home ex cp (Except.ok raw)).1,
        r.configType = ".claude.json (project)" ∧ r.path = p) ↔
      (∃ servers, (p, some servers) ∈ raw.projects.getD [] ∧ 0 < servers.length ∧
        (ex p = true ∨ p.toList.contains '/' = true))) ∧
    (∀ r ∈ (parseClaudeConfig home ex cp (Except.ok raw)).1,
      r.configType = ".claude.json (project)" → r.scope = "workspace") := by
  constructor
  · constructor
    · rintro ⟨r, hr, hrt, hrp⟩
      obtain ⟨pr, hpr, servers, hpr2, hlen, hacc, hre⟩ := parseClaude_project_mem hr hrt
      have hp1 : pr.1 = p := by
        rw [hre] at hrp
        exact hrp
      have hpp : pr = (p, some servers) := Prod.ext hp1 hpr2
      refine ⟨servers, ?_, hlen, ?_⟩
      · rw [← hpp]
        exact hpr
      · rw [← hp1]
        exact hacc
    · rintro ⟨servers, hpr, hlen, hacc⟩
      exact ⟨_, parseClaude_project_mem_of hpr hlen hacc, rfl, rfl⟩
  · intro r hr hrt
    obtain ⟨pr, _, servers, _, _, _, hre⟩ := parseClaude_project_mem hr hrt
    rw [hre]

/-- Witness for C8 at a concrete registry content. -/
theorem project_acceptance_witness :
    (sampleRecProj ∈ (parseClaudeConfig "/h" (fun _ => false) "/h/.claude.json"
        (Except.ok ⟨some [("github", sampleDecl)], none,
          some [("/h/p", some [("github", sampleDecl)])]⟩)).1 ∧
     sampleRecProj.configType = ".claude.json (project)") ∧
    sampleRecProj.scope = "workspace" :=
  ⟨⟨by decide, rfl⟩,
    (project_acceptance "/h" (fun _ => false) "/h/.claude.json"
        ⟨some [("github", sampleDecl)], none, some [("/h/p", some [("github", sampleDecl)])]⟩
        "/h/p").2 sampleRecProj (by decide) rfl⟩
